import Mathlib

/-
Verification of the Monte Carlo demand simulation (sm_lcg.py).

The script's core logic is embedded shallowly:
  * `generate_lcg`        — the LCG loop (lines 81-87), on ℕ (all widget
    inputs are non-negative integers; Python `%` with a positive modulus
    agrees with `Nat.mod`);
  * `normalizeStep`       — the module-level probability normalization
    (lines 54-60): result list, whether `st.error` fired, whether
    `st.warning` fired.  Note that `st.error` does not stop a Streamlit
    script: execution continues with the unchanged list;
  * `partialSums` / `round4` / `cum_probs` — the cumulative-probability
    loop (lines 65-68), which appends `round(cum_sum, 4)` of the raw
    running sum;
  * `map_to_demand`       — the inverse-CDF lookup (lines 89-93); Python
    indexing that may raise is modelled with `Option` (`none` = IndexError);
  * `runScript`           — the module-level pipeline (lines 98-100);
  * `avg_6` / `avg_n` / `statsBlock` — the statistics block (lines 118-126).

Probabilities, uniforms and demand values are modelled as ℚ.
-/

/-- LCG loop of `generate_lcg` (sm_lcg.py lines 81-87): starting from the
seed, repeat `X = (a * X + c) % m` n times, collecting each new `X`.  The
seed itself is never appended. -/
def generate_lcg (seed a c m : ℕ) : ℕ → List ℕ
  | 0 => []
  | n + 1 => (a * seed + c) % m :: generate_lcg ((a * seed + c) % m) a c m n

/-- Modelled from the spec wording of the LCG recurrence, for comparison
with `generate_lcg`: `X[0] = seed`, `X[k] = (a * X[k-1] + c) % m`. -/
def specX (seed a c m : ℕ) : ℕ → ℕ
  | 0 => seed
  | k + 1 => (a * specX seed a c m k + c) % m

/-- Uniform derivation of line 99: `U_values = [x / m for x in X_values]`. -/
def U_values (xs : List ℕ) (m : ℕ) : List ℚ :=
  xs.map fun x : ℕ => (x : ℚ) / (m : ℚ)

/-- Module-level probability normalization (lines 54-60).  Returns the
probability list that the rest of the script uses, whether `st.error`
fired (zero sum), and whether `st.warning` fired (renormalization).
A Streamlit `st.error` does not halt the script, so on a zero sum the
original list is kept and execution continues. -/
def normalizeStep (probs : List ℚ) : List ℚ × Bool × Bool :=
  if probs.sum = 0 then (probs, true, false)
  else if 1 / 1000000 < |probs.sum - 1| then (probs.map fun p => p / probs.sum, false, true)
  else (probs, false, false)

/-- Rounding to 4 decimal digits, the `round(cum_sum, 4)` of line 68. -/
def round4 (q : ℚ) : ℚ :=
  (round (10000 * q) : ℚ) / 10000

/-- Raw running sums of the loop of lines 65-68: `cum_sum` starts at 0 and
accumulates each probability; one value is recorded per element. -/
def partialSums : ℚ → List ℚ → List ℚ
  | _, [] => []
  | acc, p :: rest => (acc + p) :: partialSums (acc + p) rest

/-- Cumulative probability table of lines 65-68: the rounded copy of each
raw running sum is appended (the accumulator itself stays unrounded). -/
def cum_probs (probs : List ℚ) : List ℚ :=
  (partialSums 0 probs).map round4

/-- Loop body of `map_to_demand` (lines 89-93) with the running index of
`enumerate` made explicit.  `demands.get? i` models `demands[i]` (`none` =
IndexError) and `demands.getLast?` models the `demands[-1]` fallback. -/
def mapToDemandFrom (u : ℚ) (demands : List ℚ) : List ℚ → ℕ → Option ℚ
  | [], _ => demands.getLast?
  | cp :: rest, i => if u ≤ cp then demands.get? i else mapToDemandFrom u demands rest (i + 1)

/-- Inverse-CDF lookup `map_to_demand` (lines 89-93). -/
def map_to_demand (u : ℚ) (demands cum : List ℚ) : Option ℚ :=
  mapToDemandFrom u demands cum 0

/-- Everything the module-level run of the script computes and displays. -/
structure ScriptOutput where
  probsUsed : List ℚ
  errorShown : Bool
  warnShown : Bool
  cumTable : List ℚ
  xValues : List ℕ
  uValues : List ℚ
  demandsGenerated : List (Option ℚ)

/-- Module-level pipeline of the script: normalization (lines 54-60),
cumulative table (lines 65-68), then the simulation of lines 98-100.
Streamlit runs all of it top to bottom regardless of `st.error`. -/
def runScript (X0 a c m n_days : ℕ) (demand_values raw_probs : List ℚ) : ScriptOutput :=
  let nrm := normalizeStep raw_probs
  let probs := nrm.1
  let cum := cum_probs probs
  let xs := generate_lcg X0 a c m n_days
  let us := U_values xs m
  let ds := us.map fun u => map_to_demand u demand_values cum
  ⟨probs, nrm.2.1, nrm.2.2, cum, xs, us, ds⟩

/-- Average of the first six demands (line 119), computed when `n_days ≥ 6`. -/
def avg_6 (ds : List ℚ) : ℚ :=
  (ds.take 6).sum / 6

/-- Average of all demands (line 122). -/
def avg_n (ds : List ℚ) (n_days : ℕ) : ℚ :=
  ds.sum / n_days

/-- Statistics block of lines 118-126: 6-day average (only when
`n_days ≥ 6`), n-day average, and the day-5 demand `demands_generated[4]`
(only when `n_days ≥ 5`). -/
def statsBlock (ds : List ℚ) (n_days : ℕ) : Option ℚ × ℚ × Option ℚ :=
  (if 6 ≤ n_days then some (avg_6 ds) else none,
   avg_n ds n_days,
   if 5 ≤ n_days then ds.get? 4 else none)

/-- Bounds the modulus widget enforces (line 21: `min_value=2, max_value=10000`). -/
def modulusWidgetAccepts (m : ℕ) : Bool :=
  decide (2 ≤ m) && decide (m ≤ 10000)

/-- Bounds the day-count slider enforces (line 23: range 1 to 100). -/
def dayCountWidgetAccepts (n : ℕ) : Bool :=
  decide (1 ≤ n) && decide (n ≤ 100)

theorem specX_shift (seed a c m : ℕ) :
    ∀ k, specX seed a c m (k + 1) = specX ((a * seed + c) % m) a c m k := by
  intro k
  induction k with
  | zero => rfl
  | succ k ih =>
      show (a * specX seed a c m (k + 1) + c) % m = _
      rw [ih]
      rfl

theorem generate_lcg_eq_specX (seed a c m n : ℕ) :
    generate_lcg seed a c m n = (List.range n).map fun k => specX seed a c m (k + 1) := by
  induction n generalizing seed with
  | zero => rfl
  | succ n ih =>
      rw [List.range_succ_eq_map, List.map_cons, List.map_map]
      show (a * seed + c) % m :: generate_lcg ((a * seed + c) % m) a c m n = _
      rw [ih ((a * seed + c) % m)]
      congr 1
      apply List.map_congr_left
      intro k _
      show specX ((a * seed + c) % m) a c m (k + 1) = specX seed a c m (k + 1 + 1)
      rw [specX_shift seed a c m (k + 1)]

theorem generate_lcg_length (a c m : ℕ) :
    ∀ (n seed : ℕ), (generate_lcg seed a c m n).length = n := by
  intro n
  induction n with
  | zero => intro seed; rfl
  | succ n ih =>
      intro seed
      show ((a * seed + c) % m :: generate_lcg ((a * seed + c) % m) a c m n).length = n + 1
      rw [List.length_cons, ih]

/-- Claim C1: for every seed ≥ 0, multiplier ≥ 1, increment ≥ 0, modulus ≥ 2
and count n ≥ 0, `generate_lcg` returns exactly `X[1], ..., X[n]` of the
recurrence `X[k] = (a * X[k-1] + c) % m` with `X[0] = seed` — the seed is
never emitted, the first element is `X[1]`; and for seed 35, a = 13, c = 7,
m = 100, n = 3 the output is `[62, 13, 76]`. -/
theorem c1_lcg_sequence :
    (∀ seed a c m n : ℕ, 1 ≤ a → 2 ≤ m →
        generate_lcg seed a c m n = (List.range n).map fun k => specX seed a c m (k + 1)) ∧
    generate_lcg 35 13 7 100 3 = [62, 13, 76] :=
  ⟨fun seed a c m n _ _ => generate_lcg_eq_specX seed a c m n, by decide⟩

/-- Witness for C1 at the concrete parameters of the spec example. -/
theorem c1_lcg_sequence_witness :
    generate_lcg 35 13 7 100 3 = (List.range 3).map fun k => specX 35 13 7 100 (k + 1) :=
  c1_lcg_sequence.1 35 13 7 100 3 (by norm_num) (by norm_num)

theorem list_sum_map_div (l : List ℚ) (s : ℚ) :
    (l.map fun p => p / s).sum = l.sum / s := by
  induction l with
  | nil => simp
  | cons p t ih => simp [ih, add_div]

/-- Claim C6: when the raw probabilities have nonzero sum s, the normalizer
divides every element by s exactly when |s - 1| > 1e-6 (signalling a
warning, preserving order and length, and making the sum exactly 1), and
passes the list through unchanged when |s - 1| ≤ 1e-6. -/
theorem c6_normalizer (probs : List ℚ) (hsum : probs.sum ≠ 0) :
    (1 / 1000000 < |probs.sum - 1| →
        normalizeStep probs = (probs.map fun p => p / probs.sum, false, true) ∧
        (probs.map fun p => p / probs.sum).sum = 1 ∧
        (probs.map fun p => p / probs.sum).length = probs.length) ∧
    (|probs.sum - 1| ≤ 1 / 1000000 → normalizeStep probs = (probs, false, false)) := by
  constructor
  · intro hfar
    refine ⟨?_, ?_, List.length_map _ _⟩
    · rw [normalizeStep, if_neg hsum, if_pos hfar]
    · rw [list_sum_map_div, div_self hsum]
  · intro hnear
    rw [normalizeStep, if_neg hsum, if_neg (not_lt.mpr hnear)]

/-- Witness for C6: the spec example, probabilities summing to 0.2 are
rescaled to halves. -/
theorem c6_normalizer_witness :
    normalizeStep [1/10, 1/10] = ([1/2, 1/2], false, true) := by
  have h := (c6_normalizer [1/10, 1/10] (by norm_num)).1 (by norm_num [abs_of_pos])
  rw [h.1]
  norm_num

theorem partialSums_length (l : List ℚ) :
    ∀ acc : ℚ, (partialSums acc l).length = l.length := by
  induction l with
  | nil => intro acc; rfl
  | cons p t ih =>
      intro acc
      show ((acc + p) :: partialSums (acc + p) t).length = t.length + 1
      rw [List.length_cons, ih]

theorem partialSums_get? (l : List ℚ) :
    ∀ (acc : ℚ) (i : ℕ), i < l.length →
      (partialSums acc l).get? i = some (acc + (l.take (i + 1)).sum) := by
  induction l with
  | nil => intro acc i h; simp at h
  | cons p t ih =>
      intro acc i h
      cases i with
      | zero => simp [partialSums]
      | succ i =>
          show (partialSums (acc + p) t).get? i = _
          rw [ih (acc + p) i (by simpa using h)]
          rw [List.take_succ_cons, List.sum_cons, add_assoc]

theorem cum_probs_length (probs : List ℚ) :
    (cum_probs probs).length = probs.length := by
  rw [cum_probs, List.length_map, partialSums_length]

/-- Claim C7: the cumulative table has the same length as its input, its
entry at index i is the running sum of inputs 0..i rounded to 4 decimal
digits, and the script feeds exactly these rounded values (not the raw
sums) to the demand mapper's comparison. -/
theorem c7_cumulative_rounding (probs : List ℚ) :
    (cum_probs probs).length = probs.length ∧
    (∀ i, i < probs.length →
        (cum_probs probs).get? i = some (round4 ((probs.take (i + 1)).sum))) ∧
    ∀ X0 a c m n dv, (runScript X0 a c m n dv probs).demandsGenerated =
      (runScript X0 a c m n dv probs).uValues.map
        fun u => map_to_demand u dv (cum_probs (normalizeStep probs).1) := by
  refine ⟨cum_probs_length probs, ?_, ?_⟩
  · intro i hi
    rw [cum_probs, List.get?_map, partialSums_get? probs 0 i hi]
    simp
  · intro X0 a c m n dv
    rfl

/-- Witness for C7: second entry of the table for probabilities 0.1, 0.2. -/
theorem c7_cumulative_rounding_witness :
    (cum_probs [1/10, 2/10]).get? 1 = some (round4 ((([1/10, 2/10] : List ℚ).take 2).sum)) :=
  (c7_cumulative_rounding [1/10, 2/10]).2.1 1 (by norm_num)

theorem round4_mono {a b : ℚ} (h : a ≤ b) : round4 a ≤ round4 b := by
  rw [round4, round4]
  have hr : round (10000 * a) ≤ round (10000 * b) := by
    rw [round_eq, round_eq]
    exact Int.floor_mono (by linarith)
  exact div_le_div_of_nonneg_right (by exact_mod_cast hr) (by norm_num)

theorem abs_round4_sub (q : ℚ) : |round4 q - q| ≤ 1 / 20000 := by
  have h : |10000 * q - (round (10000 * q) : ℚ)| ≤ 1 / 2 := abs_sub_round _
  have e : round4 q - q = ((round (10000 * q) : ℚ) - 10000 * q) / 10000 := by
    rw [round4]; ring
  rw [e, abs_div, abs_sub_comm, abs_of_pos (by norm_num : (0 : ℚ) < 10000)]
  linarith

theorem partialSums_sorted (l : List ℚ) :
    ∀ acc : ℚ, (∀ p ∈ l, 0 ≤ p) →
      (partialSums acc l).Sorted (· ≤ ·) ∧ ∀ x ∈ partialSums acc l, acc ≤ x := by
  induction l with
  | nil =>
      intro acc _
      exact ⟨List.sorted_nil, by intro x hx; simp [partialSums] at hx⟩
  | cons p t ih =>
      intro acc hl
      have hp : 0 ≤ p := hl p (List.mem_cons_self _ _)
      have ht : ∀ q ∈ t, 0 ≤ q := fun q hq => hl q (List.mem_cons_of_mem _ hq)
      obtain ⟨hs, hb⟩ := ih (acc + p) ht
      refine ⟨List.sorted_cons.mpr ⟨fun x hx => hb x hx, hs⟩, ?_⟩
      intro x hx
      rcases List.mem_cons.mp hx with rfl | hx
      · linarith
      · have := hb x hx
        linarith

theorem partialSums_getLast? (l : List ℚ) :
    ∀ acc : ℚ, l ≠ [] → (partialSums acc l).getLast? = some (acc + l.sum) := by
  induction l with
  | nil => intro acc h; exact absurd rfl h
  | cons p t ih =>
      intro acc _
      cases t with
      | nil => simp [partialSums]
      | cons q t' =>
          have h2 : partialSums acc (p :: q :: t') = (acc + p) :: partialSums (acc + p) (q :: t') :=
            rfl
          have h3 : partialSums (acc + p) (q :: t') =
              ((acc + p) + q) :: partialSums ((acc + p) + q) t' := rfl
          rw [h2, h3, List.getLast?_cons_cons, ← h3, ih (acc + p) (List.cons_ne_nil _ _)]
          simp [List.sum_cons, add_assoc]

/-- Claim C8: for a normalized probability list (non-negative entries whose
sum is within 1e-6 of 1), the cumulative table is non-decreasing and its
final entry is within 1e-4 of 1. -/
theorem c8_cumulative_invariant (probs : List ℚ) (hne : probs ≠ [])
    (hpos : ∀ p ∈ probs, 0 ≤ p) (hsum : |probs.sum - 1| ≤ 1 / 1000000) :
    (cum_probs probs).Sorted (· ≤ ·) ∧
    ∃ v, (cum_probs probs).getLast? = some v ∧ |v - 1| ≤ 1 / 10000 := by
  constructor
  · exact List.Pairwise.map round4 (fun a b h => round4_mono h)
      (partialSums_sorted probs 0 hpos).1
  · refine ⟨round4 (0 + probs.sum), ?_, ?_⟩
    · rw [cum_probs, List.getLast?_map, partialSums_getLast? probs 0 hne]
      rfl
    · rw [zero_add]
      have h1 := abs_round4_sub probs.sum
      have h2 := abs_sub_le (round4 probs.sum) probs.sum 1
      linarith

/-- Witness for C8 on the two-point distribution with probabilities 1/2, 1/2. -/
theorem c8_cumulative_invariant_witness :
    (cum_probs [1/2, 1/2]).Sorted (· ≤ ·) ∧
    ∃ v, (cum_probs [1/2, 1/2]).getLast? = some v ∧ |v - 1| ≤ 1 / 10000 :=
  c8_cumulative_invariant [1/2, 1/2] (by simp)
    (by intro p hp; rcases List.mem_cons.mp hp with rfl | hp; · norm_num
        · simp at hp; rw [hp]; norm_num)
    (by norm_num)

theorem mapToDemandFrom_first (cum : List ℚ) :
    ∀ (k i : ℕ) (u : ℚ) (demands : List ℚ),
      i < cum.length → (∀ j, j < i → cum.getD j 0 < u) → u ≤ cum.getD i 0 →
      mapToDemandFrom u demands cum k = demands.get? (k + i) := by
  induction cum with
  | nil => intro k i u d hi; simp at hi
  | cons cp rest ih =>
      intro k i u d hi hlt hle
      cases i with
      | zero =>
          have hu : u ≤ cp := by simpa using hle
          simp [mapToDemandFrom, hu]
      | succ i =>
          have hcp : cp < u := by simpa using hlt 0 (Nat.succ_pos i)
          have hnot : ¬ u ≤ cp := not_le.mpr hcp
          show (if u ≤ cp then d.get? k else mapToDemandFrom u d rest (k + 1)) = _
          rw [if_neg hnot]
          rw [ih (k + 1) i u d (by simpa using hi)
            (fun j hj => by simpa using hlt (j + 1) (by omega))
            (by simpa using hle)]
          congr 1
          omega

theorem mapToDemandFrom_fallback (cum : List ℚ) :
    ∀ (k : ℕ) (u : ℚ) (demands : List ℚ),
      (∀ cp ∈ cum, cp < u) → mapToDemandFrom u demands cum k = demands.getLast? := by
  induction cum with
  | nil => intro k u d _; rfl
  | cons cp rest ih =>
      intro k u d h
      have hnot : ¬ u ≤ cp := not_le.mpr (h cp (List.mem_cons_self _ _))
      show (if u ≤ cp then d.get? k else mapToDemandFrom u d rest (k + 1)) = _
      rw [if_neg hnot]
      exact ih (k + 1) u d fun x hx => h x (List.mem_cons_of_mem _ hx)

theorem mapToDemandFrom_total (cum : List ℚ) :
    ∀ (k : ℕ) (u : ℚ) (demands : List ℚ),
      demands ≠ [] → k + cum.length ≤ demands.length →
      ∃ d, mapToDemandFrom u demands cum k = some d ∧ d ∈ demands := by
  induction cum with
  | nil =>
      intro k u ds hne _
      refine ⟨ds.getLast hne, ?_, List.getLast_mem hne⟩
      show ds.getLast? = _
      exact List.getLast?_eq_getLast_of_ne_nil hne
  | cons cp rest ih =>
      intro k u ds hne hlen
      by_cases h : u ≤ cp
      · have hk : k < ds.length := by
          simp only [List.length_cons] at hlen
          omega
        refine ⟨ds.get ⟨k, hk⟩, ?_, List.get_mem _ _ _⟩
        show (if u ≤ cp then ds.get? k else mapToDemandFrom u ds rest (k + 1)) = _
        rw [if_pos h, List.get?_eq_get hk]
      · show (∃ d, (if u ≤ cp then ds.get? k else mapToDemandFrom u ds rest (k + 1)) = some d ∧
            d ∈ ds)
        rw [if_neg h]
        refine ih (k + 1) u ds hne ?_
        simp only [List.length_cons] at hlen
        omega

/-- Claim C3: with a demand list and cumulative table of equal length (the
demand list nonempty), the mapper returns the demand at the first index i
with u ≤ cumulative[i], and the last demand value when no index qualifies. -/
theorem c3_demand_mapper (u : ℚ) (demands cum : List ℚ)
    (hlen : demands.length = cum.length) (hne : demands ≠ []) :
    (∀ i, i < cum.length → (∀ j, j < i → cum.getD j 0 < u) → u ≤ cum.getD i 0 →
        map_to_demand u demands cum = some (demands.getD i 0)) ∧
    ((∀ cp ∈ cum, cp < u) → map_to_demand u demands cum = some (demands.getLast hne)) := by
  constructor
  · intro i hi hlt hle
    have hi' : i < demands.length := hlen ▸ hi
    have h := mapToDemandFrom_first cum 0 i u demands hi hlt hle
    rw [map_to_demand, h, Nat.zero_add, List.get?_eq_get hi', List.getD_eq_get?,
      List.get?_eq_get hi']
    rfl
  · intro h
    rw [map_to_demand, mapToDemandFrom_fallback cum 0 u demands h,
      List.getLast?_eq_getLast_of_ne_nil hne]

/-- Witness for C3: the spec examples — demands [0, 10, 20], cumulative
[0.2, 0.7, 1.0]; u = 0.2 lands in the first bucket (boundary tie goes to
the lower-indexed bucket) and u = 0.71 in the last. -/
theorem c3_demand_mapper_witness :
    map_to_demand (2/10) [0, 10, 20] [2/10, 7/10, 1] = some 0 ∧
    map_to_demand (71/100) [0, 10, 20] [2/10, 7/10, 1] = some 20 := by
  constructor
  · have h := (c3_demand_mapper (2/10) [0, 10, 20] [2/10, 7/10, 1] rfl
      (by simp)).1 0 (by norm_num) (by omega) (by norm_num)
    simpa using h
  · have h := (c3_demand_mapper (71/100) [0, 10, 20] [2/10, 7/10, 1] rfl
      (by simp)).1 2 (by norm_num)
      (by intro j hj
          interval_cases j <;> norm_num)
      (by norm_num)
    simpa using h

/-- Claim C10: for any u and nonempty demand list, when the cumulative
table is no longer than the demand list the mapper always succeeds with an
element of the demand list (the last one when u exceeds every threshold);
when the cumulative table is strictly longer, it can fail with an
out-of-range demand index, modelled as `none`. -/
theorem c10_mapper_totality :
    (∀ (u : ℚ) (demands cum : List ℚ), demands ≠ [] → cum.length ≤ demands.length →
        (∃ d, map_to_demand u demands cum = some d ∧ d ∈ demands) ∧
        ((∀ cp ∈ cum, cp < u) → map_to_demand u demands cum = demands.getLast?)) ∧
    map_to_demand (3/5) [1] [1/2, 1] = none := by
  constructor
  · intro u ds cum hne hlen
    refine ⟨mapToDemandFrom_total cum 0 u ds hne (by simpa using hlen), fun h => ?_⟩
    rw [map_to_demand, mapToDemandFrom_fallback cum 0 u ds h]
  · norm_num [map_to_demand, mapToDemandFrom]

/-- Witness for C10 at u = 0.6, demands [0, 10, 20], cumulative [0.5, 1]. -/
theorem c10_mapper_totality_witness :
    ∃ d, map_to_demand (3/5) [0, 10, 20] [1/2, 1] = some d ∧ d ∈ [(0 : ℚ), 10, 20] :=
  (c10_mapper_totality.1 (3/5) [0, 10, 20] [1/2, 1] (by simp) (by simp)).1

theorem mem_generate_lcg_lt (a c m : ℕ) (hm : 0 < m) :
    ∀ (n seed : ℕ), ∀ x ∈ generate_lcg seed a c m n, x < m := by
  intro n
  induction n with
  | zero => intro seed x hx; simp [generate_lcg] at hx
  | succ n ih =>
      intro seed x hx
      have hx' : x ∈ (a * seed + c) % m :: generate_lcg ((a * seed + c) % m) a c m n := hx
      rcases List.mem_cons.mp hx' with rfl | h
      · exact Nat.mod_lt _ hm
      · exact ih _ x h

/-- Claim C4: with modulus ≥ 2, every emitted LCG value satisfies
0 ≤ X < modulus, hence every derived uniform X / modulus lies in [0, 1). -/
theorem c4_output_range (seed a c m n : ℕ) (hm : 2 ≤ m) :
    (∀ x ∈ generate_lcg seed a c m n, 0 ≤ x ∧ x < m) ∧
    ∀ u ∈ U_values (generate_lcg seed a c m n) m, 0 ≤ u ∧ u < 1 := by
  have hm0 : 0 < m := by omega
  constructor
  · intro x hx
    exact ⟨Nat.zero_le x, mem_generate_lcg_lt a c m hm0 n seed x hx⟩
  · rw [U_values, List.forall_mem_map]
    intro x hx
    have hxm : x < m := mem_generate_lcg_lt a c m hm0 n seed x hx
    constructor
    · positivity
    · rw [div_lt_one (by exact_mod_cast hm0)]
      exact_mod_cast hxm

/-- Witness for C4 at the spec's example parameters. -/
theorem c4_output_range_witness :
    (∀ x ∈ generate_lcg 35 13 7 100 3, 0 ≤ x ∧ x < 100) ∧
    ∀ u ∈ U_values (generate_lcg 35 13 7 100 3) 100, 0 ≤ u ∧ u < 1 :=
  c4_output_range 35 13 7 100 3 (by norm_num)

/-- Claim C9: on a run of n demand values, the 6-day statistic (present
exactly when n ≥ 6) is the arithmetic mean of the first min(6, n) values,
the overall statistic is the arithmetic mean of all n values, and the
day-5 statistic (present exactly when n ≥ 5) reads the entry at 0-based
index 4 — all pure functions of the demand list. -/
theorem c9_statistics (ds : List ℚ) (n : ℕ) (hlen : ds.length = n) :
    (6 ≤ n → (statsBlock ds n).1 =
        some ((ds.take (min 6 n)).sum / ((ds.take (min 6 n)).length : ℚ)) ∧
        (ds.take (min 6 n)).length = min 6 n) ∧
    (statsBlock ds n).2.1 = ds.sum / (ds.length : ℚ) ∧
    (5 ≤ n → ∃ v, (statsBlock ds n).2.2 = some v ∧ ds.get? 4 = some v) := by
  refine ⟨?_, ?_, ?_⟩
  · intro h6
    have hmin : min 6 n = 6 := min_eq_left h6
    have htl6 : (ds.take 6).length = 6 := by
      rw [List.length_take, hlen]
      omega
    refine ⟨?_, ?_⟩
    · show (if 6 ≤ n then some (avg_6 ds) else none) = _
      rw [if_pos h6, hmin, htl6, avg_6]
      norm_num
    · rw [hmin, htl6]
  · show avg_n ds n = ds.sum / (ds.length : ℚ)
    rw [avg_n, hlen]
  · intro h5
    have h4 : 4 < ds.length := by omega
    refine ⟨ds.get ⟨4, h4⟩, ?_, List.get?_eq_get h4⟩
    show (if 5 ≤ n then ds.get? 4 else none) = _
    rw [if_pos h5, List.get?_eq_get h4]

/-- Witness for C9 on the default six-day demand list. -/
theorem c9_statistics_witness :
    (statsBlock [0, 10, 20, 30, 40, 50] 6).1 =
      some ((([0, 10, 20, 30, 40, 50] : List ℚ).take (min 6 6)).sum /
        ((([0, 10, 20, 30, 40, 50] : List ℚ).take (min 6 6)).length : ℚ)) :=
  ((c9_statistics [0, 10, 20, 30, 40, 50] 6 rfl).1 (by norm_num)).1

/-- Counterexample to C5 as stated: the generator itself rejects nothing —
called with modulus 1 (< 2) it still produces a (all-zero) sequence, so no
`InvalidParams` failure precedes generation. -/
theorem c5_counterexample :
    generate_lcg 35 13 7 1 3 = [0, 0, 0] ∧ generate_lcg 35 13 7 1 3 ≠ [] := by
  exact ⟨by decide, by decide⟩

/-- Claim C5 as amended: modulus < 2 and day count < 1 are excluded by the
input widgets (modulus bounds 2..10000 on line 21, day slider 1..100 on
line 23), not by an `InvalidParams` error in the generator; the generator
performs no validation and, for any modulus ≥ 1, produces a sequence of
exactly the requested length. -/
theorem c5_widget_validation (m n_days : ℕ) :
    (m < 2 → modulusWidgetAccepts m = false) ∧
    (n_days < 1 → dayCountWidgetAccepts n_days = false) ∧
    (1 ≤ m → ∀ seed a c, (generate_lcg seed a c m n_days).length = n_days) := by
  refine ⟨?_, ?_, ?_⟩
  · intro h
    simp only [modulusWidgetAccepts, Bool.and_eq_false_iff, decide_eq_false_iff_not]
    left
    omega
  · intro h
    simp only [dayCountWidgetAccepts, Bool.and_eq_false_iff, decide_eq_false_iff_not]
    left
    omega
  · intro _ seed a c
    exact generate_lcg_length a c m n_days seed

/-- Witness for the amended C5: modulus 1 and day count 0 are both refused
by the widgets, while a direct call with modulus 1 still yields a list. -/
theorem c5_widget_validation_witness :
    modulusWidgetAccepts 1 = false ∧ dayCountWidgetAccepts 0 = false ∧
    (generate_lcg 35 13 7 1 5).length = 5 :=
  ⟨(c5_widget_validation 1 0).1 (by norm_num),
   (c5_widget_validation 1 0).2.1 (by norm_num),
   (c5_widget_validation 1 5).2.2 (by norm_num) 35 13 7⟩

/-- Claim C2 is contradicted by the script: with all-zero probabilities the
error banner fires, yet the run is not aborted — the LCG values are still
generated and every uniform is still mapped (each positive uniform falls
through the all-zero cumulative table to the `demands[-1]` fallback), so a
full results table is produced. -/
theorem c2_zero_sum_run_not_aborted :
    (runScript 35 13 7 100 3 [0, 10, 20] [0, 0, 0]).errorShown = true ∧
    (runScript 35 13 7 100 3 [0, 10, 20] [0, 0, 0]).xValues = [62, 13, 76] ∧
    (runScript 35 13 7 100 3 [0, 10, 20] [0, 0, 0]).demandsGenerated =
      [some 20, some 20, some 20] := by
  have hx : generate_lcg 35 13 7 100 3 = [62, 13, 76] := by decide
  refine ⟨?_, ?_, ?_⟩
  · show (normalizeStep [0, 0, 0]).2.1 = true
    norm_num [normalizeStep]
  · exact hx
  · show (U_values (generate_lcg 35 13 7 100 3) 100).map
        (fun u => map_to_demand u [0, 10, 20] (cum_probs (normalizeStep [0, 0, 0]).1)) =
      [some 20, some 20, some 20]
    rw [hx]
    norm_num [U_values, normalizeStep, cum_probs, partialSums, round4,
      map_to_demand, mapToDemandFrom]
